import Mathlib

/-!
Verification of the application-scoped execution core (`internal/core/app.go`)
of the waypoint repository: App construction (`newApp`), mapper-plugin
loading (`initMappers`), teardown (`App.Close`), label merging
(`App.mergeLabels`), and the dynamic invocation engine (`callDynamicFunc`).

The Go code is shallowly embedded: Go maps become association lists,
Go slices become Lean lists, the `reflect` implements-check becomes an
abstract boolean relation on runtime type names, and the side effects we
reason about (plugin shutdown-handle invocations, UI status open/close)
are made explicit as threaded state.
-/

set_option autoImplicit false

namespace Waypoint

/-- Errors produced by the embedded code. `failedPrecondition` models a
gRPC `status.Errorf(codes.FailedPrecondition, ...)` carrying the expected
interface type name and the actual produced type name
(app.go lines 257-260); `mk` models any other opaque Go error. -/
inductive GoErr where
  | mk (msg : String)
  | failedPrecondition (expected actual : String)
deriving DecidableEq, Repr

/-- A Go `map[string]string` embedded as an association list. Later
`setL` writes overwrite the binding in place, as a Go map assignment does. -/
abbrev LMap := List (String × String)

/-- `setL m k v` models the Go map assignment `m[k] = v`: it replaces the
binding of `k` if present, otherwise appends it. -/
def setL : LMap → String → String → LMap
  | [], k, v => [(k, v)]
  | (k0, v0) :: rest, k, v =>
    if k0 = k then (k, v) :: rest else (k0, v0) :: setL rest k v

/-- First-match lookup in an `LMap`; since `setL` keeps keys unique this is
the Go map read `m[k]`. -/
def lookupL : LMap → String → Option String
  | [], _ => none
  | (k0, v0) :: rest, k => if k = k0 then some v0 else lookupL rest k

/-- Left-biased choice on options, used to phrase layered label lookup. -/
def orO : Option String → Option String → Option String
  | some v, _ => some v
  | none, b => b

/-- The value the LAST binding of `k` in `m` carries (Go map literals have
unique keys, but this is robust to duplicates in the list model). -/
def lastLookup (m : LMap) (k : String) : Option String :=
  lookupL m.reverse k

/-- `mergeInto m s` models the Go loop `for k, v := range s { m[k] = v }`. -/
def mergeInto (m : LMap) (s : LMap) : LMap :=
  s.foldl (fun acc kv => setL acc kv.1 kv.2) m

/-- Converter functions (`*argmapper.Func`) are opaque to this development;
we track them as tokens. -/
abbrev MapperFunc := Nat

/-- One started plugin instance as returned by `startPlugin`: its exported
mapper functions (`pinst.Mappers`, app.go line 283) and an identifier for
its shutdown handle (`pinst.Close`). -/
structure PluginInst where
  id : Nat
  Mappers : List MapperFunc
deriving DecidableEq, Repr

/-- Modelled from the spec: the plugin loader collaborator (`factory.Factory`
and `startPlugin` are not under `src/`). §4.2: `registered(kind)` enumerates
available plugin names, stable during one construction; `start(kind, name)`
either fully succeeds with the plugin's exported converters and a shutdown
handle, or fails cleanly. -/
structure Factory where
  registered : List String
  start : String → Except GoErr PluginInst

/-- The declarative app configuration (`config.App`): name, optional
relative path, labels. -/
structure ConfigApp where
  Name : String
  Path : String
  Labels : LMap
deriving DecidableEq, Repr

/-- The owning project, reduced to the fields `newApp` reads: name, root
path, base converter chain `p.mappers`, project labels (consumed by the
spec-modelled project-level merge), the mapper-kind factory entry of
`p.factories` if registered, and `p.dir.App` directory acquisition. -/
structure Project where
  name : String
  root : String
  labels : LMap
  mappers : List MapperFunc
  mapperFactory : Option Factory
  dirApp : String → Except GoErr Nat

/-- One entry of `a.closers`: the closure appended at app.go lines 286-289.
It records which plugin instance's `Close` it invokes and the error value
the closure returns to its caller (`initMappers` builds closures that
discard `pinst.Close()`'s error and return nil, i.e. `retErr = none`). -/
structure Closer where
  pinstId : Nat
  retErr : Option GoErr

/-- The App aggregate (`core.App`), reduced to the fields the claims are
about: identity, configuration, the source descriptor (`component.Source`),
the data directory handle, the converter chain `mappers`, and the shutdown
handles `closers`. -/
structure App where
  project : Project
  config : ConfigApp
  source_App : String
  source_Path : String
  dir : Nat
  mappers : List MapperFunc
  closers : List Closer

/-! ## Go path functions (`path/filepath` on unix), used at app.go 93-98 -/

/-- Split a character list on `/` (components of a path). Total: always
returns at least one component. -/
def splitComps : List Char → List (List Char)
  | [] => [[]]
  | c :: rest =>
    match splitComps rest with
    | [] => [[]]
    | comp :: comps =>
      if c = '/' then [] :: comp :: comps
      else (c :: comp) :: comps

/-- Rejoin path components with `/`. -/
def joinComps : List (List Char) → List Char
  | [] => []
  | [c] => c
  | c :: rest => c ++ '/' :: joinComps rest

/-- Does the path begin with `/`? (Go `filepath.IsAbs` on unix.) -/
def isRooted : List Char → Bool
  | [] => false
  | c :: _ => decide (c = '/')

/-- One step of Go `filepath.Clean`'s element processing: skip empty and
`.` components; `..` pops the last real component (dropped entirely at the
root of a rooted path, kept literally at the front of a relative path);
anything else is appended. -/
def cleanStep (rooted : Bool) (stack : List (List Char)) (c : List Char) : List (List Char) :=
  if c = [] ∨ c = ['.'] then stack
  else if c = ['.', '.'] then
    if rooted then stack.dropLast
    else
      match stack.getLast? with
      | none => stack ++ [c]
      | some l => if l = ['.', '.'] then stack ++ [c] else stack.dropLast
  else stack ++ [c]

/-- Go `filepath.Clean` (unix rules): empty input becomes `.`; otherwise
the path is split on `/`, elements are processed by `cleanStep`, and the
result is rejoined, keeping the leading `/` of a rooted path. -/
def goClean (s : String) : String :=
  if s = "" then "."
  else
    let cs := s.data
    let rooted := isRooted cs
    let body := joinComps ((splitComps cs).foldl (cleanStep rooted) [])
    if rooted then ⟨'/' :: body⟩
    else if body = [] then "." else ⟨body⟩

/-- Go `filepath.IsAbs` on unix. -/
def goIsAbs (s : String) : Bool := isRooted s.data

/-- Go `filepath.Join(a, b)` (unix): empty elements before the first
non-empty one are skipped, the rest are joined with `/` and cleaned. -/
def goJoin (a b : String) : String :=
  if a ≠ "" then goClean ⟨a.data ++ '/' :: b.data⟩
  else if b ≠ "" then goClean b
  else ""

/-! ## initMappers, newApp, Close (app.go 65-154, 266-293) -/

/-- The loop body of `initMappers` (app.go 273-290): for each registered
name, start the plugin; on failure return the error at once (note: without
invoking any closer); on success append its exported mappers to the chain
and a closer for it to the closers list. -/
def initMappersLoop (f : Factory) :
    List String → List MapperFunc → List Closer →
    Except GoErr (List MapperFunc × List Closer)
  | [], ms, cs => .ok (ms, cs)
  | name :: rest, ms, cs =>
    match f.start name with
    | .error e => .error e
    | .ok pinst =>
      initMappersLoop f rest (ms ++ pinst.Mappers) (cs ++ [⟨pinst.id, none⟩])

/-- `App.initMappers` (app.go 267-293). -/
def App.initMappers (a : App) (f : Factory) : Except GoErr App :=
  match initMappersLoop f f.registered a.mappers a.closers with
  | .error e => .error e
  | .ok (ms, cs) => .ok { a with mappers := ms, closers := cs }

/-- `newApp` (app.go 65-144). The second component is the log of plugin
instance ids whose shutdown handle (`pinst.Close`) was invoked during the
construction attempt; the code contains no such invocation on any path, so
the log is empty on every branch — faithfully mirroring that `newApp`
returns errors without running any accumulated closer. -/
def newApp (p : Project) (cfg : ConfigApp) : Except GoErr App × List Nat :=
  let app0 : App :=
    { project := p
      config := cfg
      source_App := cfg.Name
      source_Path := "."
      dir := 0
      -- app.go 85: a new slice is allocated and the project chain copied in
      mappers := [] ++ p.mappers
      closers := [] }
  -- app.go 93-98: determine our path
  let path := if cfg.Path = "" then p.root else goJoin p.root cfg.Path
  let app1 := { app0 with source_Path := path }
  match p.dirApp cfg.Name with
  | .error e => (.error e, [])
  | .ok d =>
    let app2 := { app1 with dir := d }
    match p.mapperFactory with
    | none => (.ok app2, [])
    | some f =>
      match app2.initMappers f with
      | .error e => (.error e, [])
      | .ok app3 => (.ok app3, [])

/-- `App.Close` (app.go 148-154): invoke every closer in order (appending
the plugin id it closes to the invocation log), discard each closer's
returned error, and return nil. `a.closers` itself is not modified. -/
def App.Close (a : App) (log : List Nat) : Option GoErr × List Nat :=
  (none, log ++ a.closers.map (fun c => c.pinstId))

/-! ## Label merging (app.go 184-190) -/

/-- Modelled from the spec: `project.mergeLabels` is not under `src/` (only
the app-level wrapper is). §4.4: the project's own labels are the
lowest-precedence layer, and each given set, applied left-to-right,
overwrites any colliding key from a lower layer. -/
def Project.mergeLabels (p : Project) (ls : List LMap) : LMap :=
  ls.foldl mergeInto p.labels

/-- `App.mergeLabels` (app.go 187-190): prepend the app's own configured
labels to the given sets and delegate to the project-level merge. -/
def App.mergeLabels (a : App) (ls : List LMap) : LMap :=
  a.project.mergeLabels (a.config.Labels :: ls)

/-! ## The dynamic invocation engine (app.go 202-264) -/

/-- A produced Go value, reduced to its runtime type name (all the
post-call code inspects). -/
structure RawValue where
  typeName : String
deriving DecidableEq, Repr

/-- A normalized `*argmapper.Func`. Its `Call` over the assembled argument
list is abstracted as a function of the data that list draws from the App:
the converter chain (`argmapper.ConverterFunc(a.mappers...)`) and the
component's labels (the `Named("labels", ...)` argument); the outcome
covers both argument-resolution failure and failure of the called function
(both surface through `callResult.Err()`). -/
structure NormFunc where
  call : List MapperFunc → LMap → Except GoErr RawValue

/-- The `f interface{}` parameter after the normalization step at app.go
213-220: either a usable `*argmapper.Func` or the error
`argmapper.NewFunc` produced. -/
structure FuncVal where
  norm : Except GoErr NormFunc

/-- The component record parameter `c *Component`: the only field
`callDynamicFunc` reads is `c.labels` (app.go 238). -/
structure Component where
  labels : LMap

/-- UI status-bar state: how many times `a.UI.Status()` opened a status
and how many times `Close` was observed on one. -/
structure UIState where
  statusOpens : Nat
  statusCloses : Nat
deriving DecidableEq, Repr

/-- `a.UI.Status()` evaluated at the `defer` statement (app.go 224). -/
def openStatus (u : UIState) : UIState :=
  { u with statusOpens := u.statusOpens + 1 }

/-- The deferred `.Close()` running on function exit, panics included. -/
def closeStatus (u : UIState) : UIState :=
  { u with statusCloses := u.statusCloses + 1 }

/-- How one invocation of `callDynamicFunc` terminates: a returned value,
a returned error, or a runtime panic (nil pointer dereference). -/
inductive DynResult where
  | ok (v : RawValue)
  | err (e : GoErr)
  | panicked
deriving DecidableEq, Repr

/-- `App.callDynamicFunc` (app.go 202-264). `impls` is the runtime
`reflect.Type.Implements` relation (actual type name, expected interface
name); `result` is the expected-capability parameter, `none` embedding Go
nil. Order of events mirrors the source: normalize `f` (213-220) — on
failure return before any status is opened; open the status and defer its
close (224); build the argument list, dereferencing `c.labels` (227-239) —
a nil `c` panics here, the deferred close still running; call (242-245);
return raw as-is when no result type is expected (250-252); otherwise
verify with `Implements` (254-263). -/
def App.callDynamicFunc (a : App) (impls : String → String → Bool)
    (result : Option String) (c : Option Component) (f : FuncVal)
    (u : UIState) : DynResult × UIState :=
  match f.norm with
  | .error e => (.err e, u)
  | .ok rawFunc =>
    let u1 := openStatus u
    match c with
    | none => (.panicked, closeStatus u1)
    | some comp =>
      match rawFunc.call a.mappers comp.labels with
      | .error e => (.err e, closeStatus u1)
      | .ok raw =>
        match result with
        | none => (.ok raw, closeStatus u1)
        | some interfaceType =>
          if impls raw.typeName interfaceType then (.ok raw, closeStatus u1)
          else (.err (.failedPrecondition interfaceType raw.typeName), closeStatus u1)

/-! ## Concrete fixtures used by witnesses and counterexamples -/

/-- A project with no mapper factory, base chain `[7]`, root `/proj`. -/
def pNoPlugins : Project :=
  { name := "proj", root := "/proj", labels := [], mappers := [7]
    mapperFactory := none, dirApp := fun _ => .ok 3 }

/-- An app holding one started shutdown handle, for plugin instance `0`. -/
def appOneCloser : App :=
  { project := pNoPlugins, config := ⟨"web", "", []⟩, source_App := "web"
    source_Path := "/proj", dir := 3, mappers := [7], closers := [⟨0, none⟩] }

/-- A normalized function whose call produces a value of runtime type `T`. -/
def nfOkT : NormFunc := ⟨fun _ _ => .ok ⟨"T"⟩⟩

/-- The function parameter wrapping `nfOkT` (normalization succeeds). -/
def fOkT : FuncVal := ⟨.ok nfOkT⟩

/-- A normalized function whose call produces a value of runtime type `I`. -/
def nfOkI : NormFunc := ⟨fun _ _ => .ok ⟨"I"⟩⟩

/-- The function parameter wrapping `nfOkI`. -/
def fOkI : FuncVal := ⟨.ok nfOkI⟩

/-- A toy implements-relation: a type implements exactly the interface of
its own name. -/
def implsEq : String → String → Bool := fun t i => t == i

/-- A component record with no labels. -/
def compEmpty : Component := ⟨[]⟩

/-- UI state before an invocation: no status opened or closed yet. -/
def u0 : UIState := ⟨0, 0⟩

/-- A factory with two registered mapper plugins where the first starts as
plugin instance 1 and the second fails. -/
def factoryTwoSecondFails : Factory :=
  { registered := ["m1", "m2"]
    start := fun n => if n = "m1" then .ok ⟨1, [10]⟩ else .error (.mk "boom") }

/-- A project whose mapper factory is `factoryTwoSecondFails`. -/
def pTwoPlugins : Project :=
  { name := "proj", root := "/proj", labels := [], mappers := [7]
    mapperFactory := some factoryTwoSecondFails, dirApp := fun _ => .ok 3 }

/-- The app configuration used by the construction fixtures. -/
def cfgWeb : ConfigApp := ⟨"web", "", []⟩

/-- A factory with a single registered plugin that starts as instance 1
exporting converter token 10. -/
def factoryOneOk : Factory :=
  { registered := ["m1"], start := fun _ => .ok ⟨1, [10]⟩ }

/-- A project whose mapper factory is `factoryOneOk`. -/
def pOnePlugin : Project :=
  { name := "proj", root := "/proj", labels := [], mappers := [7]
    mapperFactory := some factoryOneOk, dirApp := fun _ => .ok 3 }

/-- The layered resolution the spec describes: starting from a base
answer, each label set in turn (left-to-right) overrides the answer on the
keys it binds. -/
def resolveLayers (base : Option String) (layers : List LMap) (k : String) : Option String :=
  layers.foldl (fun acc mp => orO (lastLookup mp k) acc) base

/-- The app used in the concrete label-merge examples: its own configured
labels are `env=staging, team=infra`, its project has no labels. -/
def appLabelsFixture : App :=
  { project := pNoPlugins
    config := ⟨"web", "", [("env", "staging"), ("team", "infra")]⟩
    source_App := "web", source_Path := "/proj", dir := 3
    mappers := [7], closers := [] }

/-- A path component `filepath.Clean` keeps: neither empty nor `.` nor `..`. -/
def goodComp (c : List Char) : Prop := c ≠ [] ∧ c ≠ ['.'] ∧ c ≠ ['.', '.']

/-- The configuration used by the C9 witness: a relative path `web` under
the project root. -/
def cfgSub : ConfigApp := ⟨"web", "web", []⟩

/-- The App `newApp` builds from `pNoPlugins` and `cfgSub`. -/
def appC9 : App :=
  { project := pNoPlugins, config := cfgSub, source_App := "web"
    source_Path := "/proj/web", dir := 3, mappers := [7], closers := [] }

/-! ## C7: Close always returns nil -/

/-- C7: `App.Close` always returns success (nil error) for every App and
every behavior of its shutdown handles — each closer is invoked (its plugin
id appended to the log, in order) but its error result (`Closer.retErr`,
an arbitrary `Option GoErr`) has no bearing on the returned value, which
is `none` unconditionally. -/
theorem C7_close_always_returns_nil (a : App) (log : List Nat) :
    (a.Close log).1 = none ∧
    (a.Close log).2 = log ++ a.closers.map (fun c => c.pinstId) :=
  ⟨rfl, rfl⟩

/-! ## C2: teardown — every handle once per call, but Close is NOT
idempotent: a second Close re-invokes every handle -/

/-- C2 (counterexample): for an App with one started handle (plugin id 0),
calling `Close` a second time DOES re-invoke the handle: after two calls
the handle has been invoked twice, not once, contradicting the claim that
a second Close does not re-invoke any handle. -/
theorem C2_second_close_reinvokes_cex :
    (appOneCloser.Close []).2 = [0] ∧
    ((appOneCloser.Close (appOneCloser.Close []).2).2).count 0 = 2 ∧
    (2 : Nat) ≠ 1 := by
  refine ⟨rfl, rfl, by decide⟩

/-- C2 (amended): one call to `Close` invokes every started handle exactly
once (each handle's plugin id is appended exactly as often as it occurs
among the closers) and returns nil without panicking; but because
`a.closers` is never cleared, a second call invokes every handle a second
time. -/
theorem C2_close_once_per_call (a : App) (log : List Nat) (i : Nat) :
    (a.Close log).1 = none ∧
    (a.Close log).2.count i
      = log.count i + (a.closers.map (fun c => c.pinstId)).count i ∧
    ((a.Close (a.Close log).2).2).count i
      = log.count i + 2 * (a.closers.map (fun c => c.pinstId)).count i := by
  refine ⟨rfl, by simp [App.Close, List.count_append], ?_⟩
  simp [App.Close, List.count_append]
  ring

/-! ## C3: capability validation with a non-nil expected result -/

/-- C3: with a non-nil expected capability, if the produced value's runtime
type does not implement the expected interface, `callDynamicFunc` fails
with a FailedPrecondition error naming the expected interface type and the
actual produced type; if it does implement it, the call succeeds and
returns the value unchanged. -/
theorem C3_capability_validation (a : App) (impls : String → String → Bool)
    (iface : String) (comp : Component) (f : FuncVal) (u : UIState)
    (nf : NormFunc) (raw : RawValue)
    (hn : f.norm = .ok nf) (hc : nf.call a.mappers comp.labels = .ok raw) :
    (impls raw.typeName iface = false →
      a.callDynamicFunc impls (some iface) (some comp) f u
        = (.err (.failedPrecondition iface raw.typeName), closeStatus (openStatus u))) ∧
    (impls raw.typeName iface = true →
      a.callDynamicFunc impls (some iface) (some comp) f u
        = (.ok raw, closeStatus (openStatus u))) := by
  constructor <;> intro h <;> simp [App.callDynamicFunc, hn, hc, h]

/-- C3 witness: a produced value of type `T` fails validation against
interface `I` with the error naming both, and a produced value of type `I`
passes and is returned unchanged. -/
theorem C3_capability_validation_witness :
    (implsEq "T" "I" = false ∧
      appOneCloser.callDynamicFunc implsEq (some "I") (some compEmpty) fOkT u0
        = (.err (.failedPrecondition "I" "T"), closeStatus (openStatus u0))) ∧
    (implsEq "I" "I" = true ∧
      appOneCloser.callDynamicFunc implsEq (some "I") (some compEmpty) fOkI u0
        = (.ok ⟨"I"⟩, closeStatus (openStatus u0))) := by
  refine ⟨⟨by decide, ?_⟩, ⟨by decide, ?_⟩⟩
  · exact (C3_capability_validation appOneCloser implsEq "I" compEmpty fOkT u0
      nfOkT ⟨"T"⟩ rfl rfl).1 (by decide)
  · exact (C3_capability_validation appOneCloser implsEq "I" compEmpty fOkI u0
      nfOkI ⟨"I"⟩ rfl rfl).2 (by decide)

/-! ## C4: the UI status opened for an invocation is closed on every exit
path -/

/-- C4: whenever the function normalizes (so the invocation proceeds past
the point where the status is opened), exactly one status is opened and
exactly one close on it is observed before `callDynamicFunc` returns, on
every exit path — success, argument-resolution failure or call failure
(both a `.error` from the call), failed capability validation, and even
the nil-component panic (the deferred close runs during unwinding). -/
theorem C4_status_closed_on_every_path (a : App) (impls : String → String → Bool)
    (result : Option String) (c : Option Component) (f : FuncVal) (u : UIState)
    (nf : NormFunc) (hn : f.norm = .ok nf) :
    ((a.callDynamicFunc impls result c f u).2).statusOpens = u.statusOpens + 1 ∧
    ((a.callDynamicFunc impls result c f u).2).statusCloses = u.statusCloses + 1 := by
  simp only [App.callDynamicFunc, hn]
  rcases c with _ | comp
  · simp [openStatus, closeStatus]
  · rcases hcall : nf.call a.mappers comp.labels with e | raw
    · simp [hcall, openStatus, closeStatus]
    · rcases result with _ | i
      · simp [hcall, openStatus, closeStatus]
      · by_cases himp : impls raw.typeName i <;>
          simp [hcall, himp, openStatus, closeStatus]

/-- C4 witness: a concrete successful invocation opens one status and one
close on it is observed. -/
theorem C4_status_closed_witness :
    ((appOneCloser.callDynamicFunc implsEq (some "I") (some compEmpty) fOkT u0).2).statusOpens
      = u0.statusOpens + 1 ∧
    ((appOneCloser.callDynamicFunc implsEq (some "I") (some compEmpty) fOkT u0).2).statusCloses
      = u0.statusCloses + 1 :=
  C4_status_closed_on_every_path appOneCloser implsEq (some "I") (some compEmpty)
    fOkT u0 nfOkT rfl

/-! ## C8: nil expected capability returns the raw value unmodified -/

/-- C8: with a nil expected result parameter, a successful underlying call
returns the raw produced value unmodified and no type validation is
performed (the outcome does not depend on the implements-relation). -/
theorem C8_nil_expected_returns_raw (a : App) (impls : String → String → Bool)
    (comp : Component) (f : FuncVal) (u : UIState) (nf : NormFunc) (raw : RawValue)
    (hn : f.norm = .ok nf) (hc : nf.call a.mappers comp.labels = .ok raw) :
    a.callDynamicFunc impls none (some comp) f u
      = (.ok raw, closeStatus (openStatus u)) := by
  simp [App.callDynamicFunc, hn, hc]

/-- C8 witness: a concrete call with nil expected capability returns the
produced `T`-typed value as-is (under a relation by which `T` implements
nothing but `T`). -/
theorem C8_nil_expected_returns_raw_witness :
    appOneCloser.callDynamicFunc implsEq none (some compEmpty) fOkT u0
      = (.ok ⟨"T"⟩, closeStatus (openStatus u0)) :=
  C8_nil_expected_returns_raw appOneCloser implsEq compEmpty fOkT u0 nfOkT ⟨"T"⟩ rfl rfl

/-! ## C10: nil component record panics -/

/-- C10: once the function parameter normalizes, `callDynamicFunc` builds
the named labels argument by dereferencing the component record with no
nil check, so a nil component makes the invocation panic (a nil-pointer
dereference at `c.labels`) rather than return an error — for every
expected-result parameter. -/
theorem C10_nil_component_panics (a : App) (impls : String → String → Bool)
    (result : Option String) (f : FuncVal) (u : UIState)
    (nf : NormFunc) (hn : f.norm = .ok nf) :
    a.callDynamicFunc impls result none f u
      = (.panicked, closeStatus (openStatus u)) := by
  simp [App.callDynamicFunc, hn]

/-- C10 witness: a concrete invocation with a nil component record panics. -/
theorem C10_nil_component_panics_witness :
    appOneCloser.callDynamicFunc implsEq (some "I") none fOkT u0
      = (.panicked, closeStatus (openStatus u0)) :=
  C10_nil_component_panics appOneCloser implsEq (some "I") fOkT u0 nfOkT rfl

/-! ## C1 / C6: initMappers behavior during construction -/

/-- When every registered plugin starts, the `initMappers` loop appends each
plugin's exported mappers and one closer per plugin, in registration order. -/
theorem initMappersLoop_all_ok (f : Factory) (insts : String → PluginInst) :
    ∀ (names : List String) (ms : List MapperFunc) (cs : List Closer),
      (∀ n ∈ names, f.start n = .ok (insts n)) →
      initMappersLoop f names ms cs
        = .ok (ms ++ (names.map (fun n => (insts n).Mappers)).flatten,
               cs ++ names.map (fun n => Closer.mk (insts n).id none)) := by
  intro names
  induction names with
  | nil => intro ms cs _; simp [initMappersLoop]
  | cons n rest ih =>
    intro ms cs h
    have hn := h n (List.mem_cons_self n rest)
    simp only [initMappersLoop, hn]
    rw [ih _ _ (fun m hm => h m (List.mem_cons_of_mem n hm))]
    simp

/-- If every plugin before `bad` starts and `bad` fails, the loop stops with
`bad`'s error at once (and in particular never reaches the closers it has
accumulated: the error is returned directly). -/
theorem initMappersLoop_fails (f : Factory) (insts : String → PluginInst)
    (bad : String) (e : GoErr) (hbad : f.start bad = .error e) :
    ∀ (names1 names2 : List String) (ms : List MapperFunc) (cs : List Closer),
      (∀ n ∈ names1, f.start n = .ok (insts n)) →
      initMappersLoop f (names1 ++ bad :: names2) ms cs = .error e := by
  intro names1
  induction names1 with
  | nil => intro names2 ms cs _; rw [List.nil_append, initMappersLoop, hbad]
  | cons n rest ih =>
    intro names2 ms cs h
    have hn := h n (List.mem_cons_self n rest)
    rw [List.cons_append]
    simp only [initMappersLoop, hn]
    exact ih names2 _ _ (fun m hm => h m (List.mem_cons_of_mem n hm))

/-- On every branch of `newApp` — error or success — no shutdown handle is
invoked during the construction attempt: the code contains no call to any
accumulated closer. -/
theorem newApp_invokes_no_closer (p : Project) (cfg : ConfigApp) :
    (newApp p cfg).2 = [] := by
  simp only [newApp]
  repeat' split
  all_goals rfl

/-- C1 (counterexample): when the second of two mapper plugins fails to
start, `newApp` aborts with that error and produces no App — but the
already-started first plugin's shutdown handle (plugin instance 1) is NOT
invoked before the error is returned: the construction-time close log is
empty, contradicting the claim. -/
theorem C1_no_rollback_cex :
    (newApp pTwoPlugins cfgWeb).1 = .error (.mk "boom") ∧
    1 ∉ (newApp pTwoPlugins cfgWeb).2 := by
  refine ⟨rfl, by decide⟩

/-- C1 (amended): if a mapper plugin fails to start during App
construction (all plugins registered before it starting fine), the whole
construction aborts with that error and no App is produced, but no plugin
started during the same attempt has its shutdown handle invoked before the
error is returned — the close log of the attempt is empty. -/
theorem C1_failed_construction_aborts_without_rollback
    (p : Project) (cfg : ConfigApp) (d : Nat)
    (f : Factory) (insts : String → PluginInst)
    (names1 names2 : List String) (bad : String) (e : GoErr)
    (hd : p.dirApp cfg.Name = .ok d)
    (hf : p.mapperFactory = some f)
    (hr : f.registered = names1 ++ bad :: names2)
    (hs : ∀ n ∈ names1, f.start n = .ok (insts n))
    (hbad : f.start bad = .error e) :
    (newApp p cfg).1 = .error e ∧ (newApp p cfg).2 = [] := by
  refine ⟨?_, newApp_invokes_no_closer p cfg⟩
  unfold newApp
  rw [hd, hf]
  simp only [App.initMappers, hr,
    initMappersLoop_fails f insts bad e hbad names1 names2 _ _ hs]

/-- C1 witness: the amended theorem at the two-plugin fixture. -/
theorem C1_failed_construction_witness :
    (newApp pTwoPlugins cfgWeb).1 = .error (.mk "boom") ∧
    (newApp pTwoPlugins cfgWeb).2 = [] :=
  C1_failed_construction_aborts_without_rollback pTwoPlugins cfgWeb 3
    factoryTwoSecondFails (fun _ => ⟨1, [10]⟩) ["m1"] [] "m2" (.mk "boom")
    rfl rfl rfl
    (by intro n hn; rw [List.mem_singleton] at hn; subst hn; rfl) rfl

/-- C6: the App's converter chain starts as a content copy of the
project's chain and grows only by appending each loaded mapper plugin's
exported converters after the project-level entries: with no mapper
factory the chain equals the project chain by content, and with a factory
whose plugins all start, the chain is the project chain followed by the
plugins' exported mappers in registration order. -/
theorem C6_chain_copy_then_append (p : Project) (cfg : ConfigApp) (d : Nat)
    (hd : p.dirApp cfg.Name = .ok d) :
    (p.mapperFactory = none →
      (newApp p cfg).1.map App.mappers = .ok p.mappers) ∧
    (∀ (f : Factory) (insts : String → PluginInst),
      p.mapperFactory = some f →
      (∀ n ∈ f.registered, f.start n = .ok (insts n)) →
      (newApp p cfg).1.map App.mappers
        = .ok (p.mappers
            ++ (f.registered.map (fun n => (insts n).Mappers)).flatten)) := by
  constructor
  · intro hf
    unfold newApp
    rw [hd, hf]
    rfl
  · intro f insts hf hs
    unfold newApp
    rw [hd, hf]
    simp only [App.initMappers, initMappersLoop_all_ok f insts f.registered _ _ hs]
    simp [Except.map]

/-- C6 witness: with no mapper factory the chain is the project chain; with
one plugin exporting converter 10 the chain is the project chain with 10
appended. -/
theorem C6_chain_copy_then_append_witness :
    ((newApp pNoPlugins cfgWeb).1.map App.mappers = .ok pNoPlugins.mappers) ∧
    ((newApp pOnePlugin cfgWeb).1.map App.mappers
      = .ok (pOnePlugin.mappers
          ++ (factoryOneOk.registered.map
                (fun n => ((fun _ => PluginInst.mk 1 [10]) n).Mappers)).flatten)) :=
  ⟨(C6_chain_copy_then_append pNoPlugins cfgWeb 3 rfl).1 rfl,
   (C6_chain_copy_then_append pOnePlugin cfgWeb 3 rfl).2 factoryOneOk
     (fun _ => ⟨1, [10]⟩) rfl
     (by intro n hn
         have hn1 : n = "m1" := by simpa [factoryOneOk] using hn
         subst hn1; rfl)⟩

/-! ## C5: label merge precedence -/

/-- Reading back a key after a map write: the written key now maps to the
written value and every other key is untouched. -/
theorem lookupL_setL (m : LMap) (k v q : String) :
    lookupL (setL m k v) q = if q = k then some v else lookupL m q := by
  induction m with
  | nil => simp [setL, lookupL]
  | cons kv rest ih =>
    obtain ⟨k0, v0⟩ := kv
    by_cases h : k0 = k
    · subst h
      by_cases hq : q = k0 <;> simp [setL, lookupL, hq]
    · by_cases hq0 : q = k0 <;> by_cases hqk : q = k <;>
        simp_all [setL, lookupL]

/-- Lookup distributes over list append, preferring the left part. -/
theorem lookupL_append (m1 m2 : LMap) (k : String) :
    lookupL (m1 ++ m2) k = orO (lookupL m1 k) (lookupL m2 k) := by
  induction m1 with
  | nil => simp [lookupL, orO]
  | cons kv rest ih =>
    obtain ⟨k0, v0⟩ := kv
    by_cases h : k = k0 <;> simp [lookupL, h, orO, ih]

/-- Unfolding `lastLookup` one binding at a time: a later binding in the
list shadows an earlier one. -/
theorem lastLookup_cons (k0 v0 : String) (s : LMap) (k : String) :
    lastLookup ((k0, v0) :: s) k
      = orO (lastLookup s k) (if k = k0 then some v0 else none) := by
  by_cases h : k = k0 <;>
    simp [lastLookup, List.reverse_cons, lookupL_append, lookupL, h]

/-- Looking up a key after merging a set into a map: the merged set wins on
its own keys (its last binding of the key), the base map answers otherwise. -/
theorem lookupL_mergeInto (s : LMap) : ∀ (m : LMap) (k : String),
    lookupL (mergeInto m s) k = orO (lastLookup s k) (lookupL m k) := by
  induction s with
  | nil => intro m k; simp [mergeInto, lastLookup, lookupL, orO]
  | cons kv s ih =>
    obtain ⟨k0, v0⟩ := kv
    intro m k
    rw [show mergeInto m ((k0, v0) :: s) = mergeInto (setL m k0 v0) s from rfl,
      ih, lastLookup_cons, lookupL_setL]
    rcases hls : lastLookup s k with _ | v
    · by_cases hk : k = k0 <;> simp [orO, hk]
    · simp [orO]

/-- Folding `mergeInto` over a list of label sets resolves every key by
layered precedence: the rightmost set binding the key wins, the base map
answers when no set binds it. -/
theorem lookupL_foldl_mergeInto (ls : List LMap) : ∀ (m : LMap) (k : String),
    lookupL (ls.foldl mergeInto m) k = resolveLayers (lookupL m k) ls k := by
  induction ls with
  | nil => intro m k; rfl
  | cons s ls ih =>
    intro m k
    rw [List.foldl_cons, ih, lookupL_mergeInto]
    rfl

/-- If layered resolution answers nothing, no layer (nor the base) binds
the key: merging never drops an entry. -/
theorem resolveLayers_eq_none (layers : List LMap) :
    ∀ (base : Option String) (k : String),
      resolveLayers base layers k = none →
      base = none ∧ ∀ mp ∈ layers, lastLookup mp k = none := by
  induction layers with
  | nil => intro base k h; exact ⟨h, by simp⟩
  | cons s ls ih =>
    intro base k h
    simp only [resolveLayers, List.foldl_cons] at h
    obtain ⟨h1, h2⟩ := ih _ k h
    rcases hls : lastLookup s k with _ | v
    · rw [hls] at h1
      refine ⟨h1, ?_⟩
      intro mp hmp
      rcases List.mem_cons.mp hmp with hmp | hmp
      · subst hmp; exact hls
      · exact h2 mp hmp
    · rw [hls] at h1; exact absurd h1 (by simp [orO])

/-- C5: `App.mergeLabels` resolves every key by layered precedence — the
project's labels are the lowest layer, the App's own configured labels sit
above them, and caller-supplied override sets apply left-to-right with the
rightmost set binding a key winning — and no entry is dropped (a key
resolving to nothing is bound in no layer). Concretely: an override
`env=prod` over configured `env=staging, team=infra` yields
`env=prod, team=infra`; no override returns the configured labels
unchanged; an override with the fresh key `region=us` adds it without
disturbing the others. -/
theorem C5_label_precedence :
    (∀ (a : App) (ls : List LMap) (k : String),
      lookupL (a.mergeLabels ls) k
        = resolveLayers (lookupL a.project.labels k) (a.config.Labels :: ls) k) ∧
    (∀ (a : App) (ls : List LMap) (k : String),
      lookupL (a.mergeLabels ls) k = none →
      lookupL a.project.labels k = none ∧
        ∀ mp ∈ a.config.Labels :: ls, lastLookup mp k = none) ∧
    appLabelsFixture.mergeLabels [[("env", "prod")]]
      = [("env", "prod"), ("team", "infra")] ∧
    appLabelsFixture.mergeLabels [] = [("env", "staging"), ("team", "infra")] ∧
    appLabelsFixture.mergeLabels [[("region", "us")]]
      = [("env", "staging"), ("team", "infra"), ("region", "us")] := by
  refine ⟨?_, ?_, rfl, rfl, rfl⟩
  · intro a ls k
    exact lookupL_foldl_mergeInto _ _ _
  · intro a ls k h
    rw [show a.mergeLabels ls = (a.config.Labels :: ls).foldl mergeInto a.project.labels
        from rfl, lookupL_foldl_mergeInto] at h
    exact resolveLayers_eq_none _ _ _ h

/-! ## C9: the source path is absolute and normalized -/

/-- Splitting always yields at least one component. -/
theorem splitComps_ne_nil (cs : List Char) : splitComps cs ≠ [] := by
  induction cs with
  | nil => simp [splitComps]
  | cons c rest ih =>
    simp only [splitComps]
    rcases h : splitComps rest with _ | ⟨comp, comps⟩
    · simp
    · by_cases hc : c = '/' <;> simp [hc]

/-- Splitting after a leading separator: an empty first component. -/
theorem splitComps_slash_cons (t : List Char) :
    splitComps ('/' :: t) = [] :: splitComps t := by
  rcases h : splitComps t with _ | ⟨comp, comps⟩
  · exact absurd h (splitComps_ne_nil t)
  · simp [splitComps, h]

/-- Splitting after a non-separator character extends the first component. -/
theorem splitComps_cons_of_ne (c : Char) (t : List Char) (hc : c ≠ '/') :
    splitComps (c :: t) = (c :: (splitComps t).headI) :: (splitComps t).tail := by
  rcases h : splitComps t with _ | ⟨comp, comps⟩
  · exact absurd h (splitComps_ne_nil t)
  · simp [splitComps, h, hc]

/-- No component produced by splitting contains the separator. -/
theorem splitComps_no_slash (cs : List Char) :
    ∀ comp ∈ splitComps cs, '/' ∉ comp := by
  induction cs with
  | nil => simp [splitComps]
  | cons c rest ih =>
    intro comp hcomp
    by_cases hc : c = '/'
    · subst hc
      rw [splitComps_slash_cons] at hcomp
      rcases List.mem_cons.mp hcomp with h | h
      · subst h; simp
      · exact ih comp h
    · rw [splitComps_cons_of_ne c rest hc] at hcomp
      rcases List.mem_cons.mp hcomp with h | h
      · subst h
        intro hmem
        rcases List.mem_cons.mp hmem with h1 | h1
        · exact hc h1.symm
        · rcases hsp : splitComps rest with _ | ⟨comp0, comps0⟩
          · exact absurd hsp (splitComps_ne_nil rest)
          · exact ih comp0 (by simp [hsp]) (by rw [hsp] at h1; simpa using h1)
      · rcases hsp : splitComps rest with _ | ⟨comp0, comps0⟩
        · exact absurd hsp (splitComps_ne_nil rest)
        · rw [hsp] at h
          exact ih comp
            (by rw [hsp]; exact List.mem_cons_of_mem _ (by simpa using h))

/-- A separator-free character list splits into itself alone. -/
theorem splitComps_of_no_slash (cs : List Char) (h : '/' ∉ cs) :
    splitComps cs = [cs] := by
  induction cs with
  | nil => rfl
  | cons c rest ih =>
    have hc : c ≠ '/' := fun e => h (by simp [e])
    have hr : '/' ∉ rest := fun hm => h (List.mem_cons_of_mem _ hm)
    rw [splitComps_cons_of_ne c rest hc, ih hr]
    simp

/-- Splitting a separator-free component glued before `/ :: t` peels the
component off. -/
theorem splitComps_append_slash (c t : List Char) (h : '/' ∉ c) :
    splitComps (c ++ '/' :: t) = c :: splitComps t := by
  induction c with
  | nil => simpa using splitComps_slash_cons t
  | cons ch c ih =>
    have hch : ch ≠ '/' := fun e => h (by simp [e])
    have hc : '/' ∉ c := fun hm => h (List.mem_cons_of_mem _ hm)
    rw [List.cons_append, splitComps_cons_of_ne ch _ hch, ih hc]
    simp

/-- Splitting is a left inverse of joining on separator-free components. -/
theorem splitComps_joinComps (l : List (List Char)) : l ≠ [] →
    (∀ c ∈ l, '/' ∉ c) → splitComps (joinComps l) = l := by
  induction l with
  | nil => intro hnil _; exact absurd rfl hnil
  | cons c l ih =>
    intro _ h
    rcases l with _ | ⟨c2, l2⟩
    · exact (by simp [joinComps, splitComps_of_no_slash c (h c (by simp))])
    · rw [show joinComps (c :: c2 :: l2) = c ++ '/' :: joinComps (c2 :: l2) from rfl,
        splitComps_append_slash c _ (h c (by simp)),
        ih (by simp) (fun x hx => h x (List.mem_cons_of_mem _ hx))]

/-- Over components `Clean` keeps (neither empty nor dots), its processing
step just appends, in order. -/
theorem foldl_cleanStep_good (rooted : Bool) (l : List (List Char)) :
    ∀ (stack : List (List Char)), (∀ c ∈ l, goodComp c) →
      l.foldl (cleanStep rooted) stack = stack ++ l := by
  induction l with
  | nil => simp
  | cons c l ih =>
    intro stack h
    obtain ⟨h1, h2, h3⟩ := h c (by simp)
    rw [List.foldl_cons,
      show cleanStep rooted stack c = stack ++ [c] from by
        simp [cleanStep, h1, h2, h3],
      ih _ (fun x hx => h x (List.mem_cons_of_mem _ hx))]
    simp

/-- Processing separator-free components of a rooted path keeps the stack
free of empty, dot, and separator-containing components. -/
theorem foldl_cleanStep_inv (l : List (List Char)) :
    ∀ (stack : List (List Char)),
      (∀ c ∈ l, '/' ∉ c) →
      (∀ x ∈ stack, goodComp x ∧ '/' ∉ x) →
      ∀ x ∈ l.foldl (cleanStep true) stack, goodComp x ∧ '/' ∉ x := by
  induction l with
  | nil => intro stack _ hs x hx; exact hs x hx
  | cons c l ih =>
    intro stack hl hs
    rw [List.foldl_cons]
    apply ih _ (fun m hm => hl m (List.mem_cons_of_mem _ hm))
    intro x hx
    unfold cleanStep at hx
    by_cases h1 : c = [] ∨ c = ['.']
    · rw [if_pos h1] at hx; exact hs x hx
    · rw [if_neg h1] at hx
      by_cases h2 : c = ['.', '.']
      · rw [if_pos h2] at hx
        simp only [if_true] at hx
        exact hs x (List.dropLast_subset _ hx)
      · rw [if_neg h2] at hx
        rcases List.mem_append.mp hx with h | h
        · exact hs x h
        · push_neg at h1
          have hx1 : x = c := by simpa using h
          subst hx1
          exact ⟨⟨h1.1, h1.2, h2⟩, hl x (by simp)⟩

/-- `goClean` of a rooted path: a leading `/` followed by the processed
components rejoined. -/
theorem goClean_rooted (t : List Char) :
    goClean ⟨'/' :: t⟩
      = ⟨'/' :: joinComps ((splitComps ('/' :: t)).foldl (cleanStep true) [])⟩ := by
  have hne : (⟨'/' :: t⟩ : String) ≠ "" := by
    intro h
    have hd := congrArg String.data h
    simp at hd
  rw [goClean, if_neg hne]
  simp [isRooted]

/-- `goClean` is idempotent on rooted paths. -/
theorem goClean_rooted_idem (t : List Char) :
    goClean (goClean ⟨'/' :: t⟩) = goClean ⟨'/' :: t⟩ := by
  rw [goClean_rooted]
  have hinv : ∀ x ∈ (splitComps ('/' :: t)).foldl (cleanStep true) [],
      goodComp x ∧ '/' ∉ x :=
    foldl_cleanStep_inv _ [] (splitComps_no_slash _) (by simp)
  rcases hs : (splitComps ('/' :: t)).foldl (cleanStep true) [] with _ | ⟨c0, rest⟩
  · rfl
  · rw [hs] at hinv
    rw [goClean_rooted, splitComps_slash_cons,
      splitComps_joinComps _ (by simp) (fun c hc => (hinv c hc).2),
      List.foldl_cons,
      show cleanStep true [] [] = [] from rfl,
      foldl_cleanStep_good true _ [] (fun c hc => (hinv c hc).1)]
    simp

/-- `goJoin` from a rooted first element is `goClean` of the rooted
concatenation. -/
theorem goJoin_rooted (rt : List Char) (b : String) :
    goJoin ⟨'/' :: rt⟩ b = goClean ⟨'/' :: (rt ++ '/' :: b.data)⟩ := by
  have hne : (⟨'/' :: rt⟩ : String) ≠ "" := by
    intro h
    have hd := congrArg String.data h
    simp at hd
  rw [goJoin, if_pos hne]
  rfl

/-- `initMappers` only rewrites the converter chain and the closers: the
source descriptor path is untouched. -/
theorem initMappers_source_Path (a b : App) (f : Factory)
    (h : a.initMappers f = .ok b) : b.source_Path = a.source_Path := by
  unfold App.initMappers at h
  rcases hl : initMappersLoop f f.registered a.mappers a.closers with e | pr
  · rw [hl] at h; exact absurd h (by simp)
  · obtain ⟨ms, cs⟩ := pr
    rw [hl] at h
    simp only [Except.ok.injEq] at h
    rw [← h]

/-- Whenever `newApp` succeeds, the produced App's source path is the
project root if the configured path is empty, and the join of root and
configured path otherwise (app.go 93-98). -/
theorem newApp_source_path (p : Project) (cfg : ConfigApp) (a : App) (log : List Nat)
    (hok : newApp p cfg = (.ok a, log)) :
    a.source_Path = (if cfg.Path = "" then p.root else goJoin p.root cfg.Path) := by
  simp only [newApp] at hok
  split at hok
  · simp at hok
  · split at hok
    · simp only [Prod.mk.injEq, Except.ok.injEq] at hok
      rw [← hok.1]
    · split at hok
      · simp at hok
      · simp only [Prod.mk.injEq, Except.ok.injEq] at hok
        rename_i hi
        rw [← hok.1, initMappers_source_Path _ _ _ hi]

/-- C9: for every App produced by `newApp` from a project whose root is an
absolute, `Clean`-normalized path, the source descriptor's path equals the
project root when the configured `Path` is empty and
`filepath.Join(root, Path)` otherwise — and in both cases it is absolute
and normalized (a `Clean` fixed point). -/
theorem C9_source_path (p : Project) (cfg : ConfigApp) (a : App) (log : List Nat)
    (habs : goIsAbs p.root = true)
    (hclean : goClean p.root = p.root)
    (hok : newApp p cfg = (.ok a, log)) :
    a.source_Path = (if cfg.Path = "" then p.root else goJoin p.root cfg.Path) ∧
    goIsAbs a.source_Path = true ∧
    goClean a.source_Path = a.source_Path := by
  have hpath := newApp_source_path p cfg a log hok
  obtain ⟨rt, hrt⟩ : ∃ rt, p.root.data = '/' :: rt := by
    unfold goIsAbs isRooted at habs
    rcases hd : p.root.data with _ | ⟨c, rest⟩ <;> rw [hd] at habs
    · exact absurd habs (by simp)
    · exact ⟨rest, by rw [of_decide_eq_true habs]⟩
  have hroot : p.root = ⟨'/' :: rt⟩ := by rw [← hrt]
  refine ⟨hpath, ?_, ?_⟩
  · rw [hpath]
    by_cases hcfg : cfg.Path = ""
    · simpa [hcfg] using habs
    · rw [if_neg hcfg, hroot, goJoin_rooted, goClean_rooted]
      rfl
  · rw [hpath]
    by_cases hcfg : cfg.Path = ""
    · simpa [hcfg] using hclean
    · rw [if_neg hcfg, hroot, goJoin_rooted]
      exact goClean_rooted_idem _

/-- C9 witness: from root `/proj` and configured path `web`, the source
path is `filepath.Join("/proj", "web") = "/proj/web"`, absolute and
normalized. -/
theorem C9_source_path_witness :
    appC9.source_Path
      = (if cfgSub.Path = "" then pNoPlugins.root else goJoin pNoPlugins.root cfgSub.Path) ∧
    goIsAbs appC9.source_Path = true ∧
    goClean appC9.source_Path = appC9.source_Path :=
  C9_source_path pNoPlugins cfgSub appC9 [] rfl rfl rfl

end Waypoint
